import Mathlib

/-!
Verification development for the immer-store core (src/index.ts).

The embedding models, directly from the source:
* `getUpdatePaths` — the path accumulator inside `getUpdate` (index.ts lines 24-39):
  for every edit record emitted by `finishDraft` the dot-joined path is added to a
  JS `Set`, and for `add`/`remove` records the dot-joined parent path
  (`path.slice(0, path.length - 1)`) is added as well.  A JS `Set` of strings is
  modelled as a duplicate-free list in insertion order (`jsSetAdd`).
* the mutation scheduler of `createAction` (lines 151-233): per-invocation state
  holds the open draft (`currentDraft`), the pending zero-delay timer (`timeout`)
  and the commits flushed so far.  Each trap hit of the `state` proxy runs
  `configureUpdate` (open a draft if none, clear and re-arm the timer); the
  wrapped call then either flushes immediately (synchronous non-awaitable
  result), leaves the then/catch continuation to flush (awaitable result), or —
  on a synchronous throw — returns through the exception without touching the
  timer.  A draft is modelled as the list of edit records `finishDraft` would
  report for the mutations performed through it; each commit entry is the dirty
  path set `getUpdate` computes for the flushed draft, and each commit triggers
  exactly one `updateListeners` notification batch.
* `updateListeners` (lines 120-133): the notification trace of one commit, a
  bucket-by-bucket dispatch followed by the global list.  A missing bucket and
  an empty bucket produce the same (empty) dispatch, so `pathListeners` is
  modelled as a total function from paths to buckets of subscription ids.
* `subscribe` (lines 83-117): `Array.from(paths)` captures the caller's set by
  value (`SubscribeWorld.cell` models the caller's mutable set object, and the
  subscription record stores the captured copy, as the returned closure does);
  the disposer removes via `splice(indexOf(subscription), 1)`, embedded exactly
  by `jsIndexOf` (first index or -1) and `jsSpliceRemoveOne` (JS `splice(start, 1)`
  including the negative-start clamping `max(len + start, 0)`).
* `Array.prototype.forEach` live iteration (`forEachLive`): the length is read
  once up front, each index is looked up in the current (possibly mutated)
  array, and absent indices are skipped — the semantics that governs dispatch
  when an update callback mutates the bucket being dispatched.
* the promise plumbing of an asynchronous action (lines 199-229): the wrapped
  function returns `actionResult` itself, while the flush/rename handlers are
  attached to a separate `.then(...).catch(...)` chain whose outcome nobody
  holds; `wrappedAsyncOutcome` records both settlements, and
  `catchHandlerMessage` is the rename logic of the `.catch` handler with its
  `error.message.indexOf('proxy that has been revoked') > 0` test
  (`jsStringIndexOf`).
-/

namespace ImmerStore

/-- The three edit-record kinds immer reports to the `finishDraft` listener. -/
inductive OpKind
  | add
  | remove
  | replace
deriving DecidableEq

/-- One edit record: an operation kind and the path of keys it touched. -/
structure Operation where
  op : OpKind
  path : List String
deriving DecidableEq

/-- JS `Set.add` on a set of strings modelled as a duplicate-free list in
insertion order. -/
def jsSetAdd (l : List String) (s : String) : List String :=
  if s ∈ l then l else l ++ [s]

/-- JS `array.join('.')`. -/
def joinPath (segs : List String) : String :=
  String.intercalate (".") segs

/-- JS `path.slice(0, path.length - 1)`: all but the last segment. -/
def parentSegs (p : List String) : List String :=
  p.take (p.length - 1)

/-- The body of the `operations.forEach` loop in `getUpdate`: for `add` and
`remove` records the parent path is added first, then the record's own path. -/
def accumOp (paths : List String) (operation : Operation) : List String :=
  let paths1 :=
    if operation.op = OpKind.add ∨ operation.op = OpKind.remove then
      jsSetAdd paths (joinPath (parentSegs operation.path))
    else paths
  jsSetAdd paths1 (joinPath operation.path)

/-- The dirty path set `getUpdate` computes from the edit records of one commit. -/
def getUpdatePaths (operations : List Operation) : List String :=
  operations.foldl accumOp []

/-- The contribution of a single edit record to the dirty path set: its own
joined path, and for `add`/`remove` records also the joined parent path. -/
def opDirty (o : Operation) (x : String) : Prop :=
  x = joinPath o.path ∨
    ((o.op = OpKind.add ∨ o.op = OpKind.remove) ∧ x = joinPath (parentSegs o.path))

/-- One hit of the `state` proxy traps inside an action body: a `get` only runs
`configureUpdate`; a `set`/`deleteProperty` additionally performs a mutation on
the open draft, recorded as the edit record immer will report for it. -/
inductive Access
  | read
  | mutate (op : Operation)
deriving DecidableEq

/-- The edit records the draft accumulates from a list of proxy accesses. -/
def opsOfAccesses (accesses : List Access) : List Operation :=
  accesses.filterMap (fun a =>
    match a with
    | Access.read => none
    | Access.mutate op => some op)

/-- Per-invocation scheduler state of `createAction`: the open draft (as the
edit records accumulated through it), whether the zero-delay `timeout` is
pending, and the commits flushed so far.  Each commit entry is the dirty path
set `flushMutations` passes to `updateListeners`, so commits and notification
batches are in one-to-one correspondence. -/
structure InvState where
  currentDraft : Option (List Operation)
  timerArmed : Bool
  commits : List (List String)
deriving DecidableEq

/-- Scheduler state at the start of an action invocation. -/
def initInv : InvState := InvState.mk none false []

/-- `configureUpdate` (index.ts lines 160-169): open a draft if none is open,
then `clearTimeout` and `setTimeout` a fresh zero-delay flush. -/
def configureUpdate (s : InvState) : InvState :=
  InvState.mk (some (s.currentDraft.getD [])) true s.commits

/-- One proxy trap hit: `configureUpdate`, then forward the operation to the
current draft. -/
def applyAccess (s : InvState) (a : Access) : InvState :=
  match a with
  | Access.read => configureUpdate s
  | Access.mutate op =>
    let s1 := configureUpdate s
    InvState.mk (some ((s1.currentDraft.getD []) ++ [op])) s1.timerArmed s1.commits

/-- `flushMutations` on an open draft, together with the `clearTimeout` (or
timer expiry) that accompanies it at every call site: commit the draft's dirty
path set, drop the draft, and leave no timer pending. -/
def flushDraft (s : InvState) (d : List Operation) : InvState :=
  InvState.mk none false (s.commits ++ [getUpdatePaths d])

/-- The events that drive one invocation's scheduler: a proxy access inside the
action body, the zero-delay timer task firing, the synchronous return of
the action function (with or without an awaitable result), and the settlement
of an awaitable result (which runs the `.then` continuation). -/
inductive Event
  | access (a : Access)
  | timerFire
  | syncReturn (isAwaitable : Bool)
  | promiseResolve
deriving DecidableEq

/-- One scheduler step per event, read off `createAction` (lines 151-233):
a fired timer flushes the draft; a synchronous non-awaitable return clears the
timer and flushes immediately if a draft is open; an awaitable return does
nothing at return time (the flush is attached to the `.then` chain); promise
settlement clears the timer and flushes any still-open draft. -/
def stepEvent (s : InvState) (e : Event) : InvState :=
  match e with
  | Event.access a => applyAccess s a
  | Event.timerFire =>
    if s.timerArmed then
      match s.currentDraft with
      | some d => flushDraft s d
      | none => InvState.mk s.currentDraft false s.commits
    else s
  | Event.syncReturn true => s
  | Event.syncReturn false =>
    match s.currentDraft with
    | some d => flushDraft s d
    | none => InvState.mk s.currentDraft false s.commits
  | Event.promiseResolve =>
    match s.currentDraft with
    | some d => flushDraft s d
    | none => InvState.mk s.currentDraft false s.commits

/-- Run a sequence of scheduler events. -/
def runEvents (es : List Event) (s : InvState) : InvState :=
  es.foldl stepEvent s

/-- An invocation whose action body performs the given accesses and then throws
synchronously: the exception propagates out of the wrapped function unchanged
before the `instanceof Promise` dispatch (lines 199-229) is reached, so neither
`clearTimeout` nor any flush runs on the way out. -/
def runThrowingInvocation (accesses : List Access) (e : String) :
    InvState × Except String Unit :=
  (runEvents (accesses.map Event.access) initInv, Except.error e)

/-- One callback invocation in a notification batch: either a path-bucket
subscription's `update` (tagged with the dirty path that triggered it, as the
log line in `updateListeners` does) or a global listener's `update`.
Subscriptions and global listeners are identified by ids. -/
inductive NotifyCall
  | pathNotify (path : String) (subId : Nat)
  | globalNotify (fnId : Nat)
deriving DecidableEq

/-- The invocation trace of `updateListeners(paths)` (index.ts lines 120-133)
when no callback mutates the registry: `paths.forEach` appends, for each dirty
path, the whole bucket in insertion order; after that loop
`globalListeners.forEach` appends every global listener in subscribe order.
A path without a bucket contributes nothing, which coincides with an empty
bucket, so `pathListeners` is a total function into buckets. -/
def updateListenersTrace (pathListeners : String → List Nat)
    (globalListeners : List Nat) (paths : List String) : List NotifyCall :=
  (paths.foldl
      (fun calls p => calls ++ (pathListeners p).map (NotifyCall.pathNotify p)) [])
    ++ globalListeners.map NotifyCall.globalNotify

/-- Concatenation of the images of a list's elements, in order. -/
def listConcatMap (f : α → List β) : List α → List β
  | [] => []
  | a :: l => f a ++ listConcatMap f l

/-- Number of occurrences of an element in a list. -/
def countOcc [DecidableEq α] (a : α) : List α → Nat
  | [] => 0
  | b :: l => (if b = a then 1 else 0) + countOcc a l

/-- JS `array.indexOf(a)`: the first index holding `a`, or -1 if absent. -/
def jsIndexOf (xs : List Nat) (a : Nat) : Int :=
  match xs with
  | [] => -1
  | x :: rest =>
    if x = a then 0
    else if jsIndexOf rest a < 0 then -1 else jsIndexOf rest a + 1

/-- JS `array.splice(start, 1)` (the resulting array): a negative `start` is
clamped to `max(len + start, 0)` — so `splice(-1, 1)` removes the LAST element
of a non-empty array — and a `start` past the end removes nothing. -/
def jsSpliceRemoveOne (xs : List Nat) (start : Int) : List Nat :=
  let len : Int := xs.length
  let actual : Int := if start < 0 then max (len + start) 0 else min start len
  xs.take actual.toNat ++ xs.drop (actual.toNat + 1)

/-- The disposer's per-bucket removal,
`bucket.splice(bucket.indexOf(subscription), 1)` (index.ts lines 101-106). -/
def removeFromBucket (bucket : List Nat) (subId : Nat) : List Nat :=
  jsSpliceRemoveOne bucket (jsIndexOf bucket subId)

/-- Point-update of one path's bucket in the `pathListeners` map. -/
def bucketUpdate (g : List Nat → List Nat) (f : String → List Nat)
    (path : String) : String → List Nat :=
  fun q => if q = path then g (f path) else f q

/-- The registration loop of `subscribe`: push the subscription onto the bucket
of every captured path (creating the bucket if missing, which for the total-map
model is the same as extending the default empty bucket). -/
def addPathSub (pathListeners : String → List Nat) (capturedPaths : List String)
    (subId : Nat) : String → List Nat :=
  capturedPaths.foldl (bucketUpdate (fun bucket => bucket ++ [subId])) pathListeners

/-- The disposer loop of `subscribe`: for every captured path, splice at the
subscription's `indexOf` in that bucket. -/
def disposePathSub (pathListeners : String → List Nat) (capturedPaths : List String)
    (subId : Nat) : String → List Nat :=
  capturedPaths.foldl (bucketUpdate (fun bucket => removeFromBucket bucket subId))
    pathListeners

/-- A registry whose path x bucket was built by two subscribes: it holds the
subscriptions 1 and 2, in insertion order. -/
def plTwoSubs : String → List Nat :=
  addPathSub (addPathSub (fun _ => []) ["x"] 1) ["x"] 2

/-- JS `Array.prototype.forEach` live semantics over a bucket of subscription
ids: the length is read once before the loop (the fuel), each index is looked
up in the CURRENT array, missing indices are skipped, and after each callback
the invoked subscription's effect `eff` (which may splice the bucket) is
applied to the array.  Returns the final array and the invocation order. -/
def forEachLive (eff : Nat → List Nat → List Nat) :
    Nat → Nat → List Nat → List Nat → List Nat × List Nat
  | 0, _, arr, invoked => (arr, invoked)
  | fuel + 1, k, arr, invoked =>
    match arr.get? k with
    | some x => forEachLive eff fuel (k + 1) (eff x arr) (invoked ++ [x])
    | none => forEachLive eff fuel (k + 1) arr invoked

/-- Dispatch of one bucket in `updateListeners` when callbacks may mutate the
bucket: `bucket.forEach(subscription => subscription.update())` with the
callbacks' registry mutations folded in live. -/
def dispatchBucketLive (eff : Nat → List Nat → List Nat) (bucket : List Nat) :
    List Nat × List Nat :=
  forEachLive eff bucket.length 0 bucket []

/-- Callback effects where subscription 1's update callback disposes
subscription 2 from the bucket (the disposer's splice-at-indexOf), and every
other callback leaves the registry alone. -/
def effDisposeTwo (x : Nat) (arr : List Nat) : List Nat :=
  if x = 1 then removeFromBucket arr 2 else arr

/-- The heap visible to `subscribe`: the caller's mutable interest-path set
object (`cell`), the `pathListeners` registry, and one record per live
subscription holding the `currentPaths = Array.from(paths)` copy its closure
captured (index.ts line 87). -/
structure SubscribeWorld where
  cell : List String
  pathListeners : String → List Nat
  records : List (Nat × List String)

/-- The operations exercising `subscribe`: a subscribe call reading the
caller's set, a mutation of the caller's set object, and a call of the
disposer returned for a subscription. -/
inductive SubEvent
  | subscribeCall (subId : Nat)
  | mutateCallerSet (newContents : List String)
  | disposeCall (subId : Nat)

/-- One step: `subscribeCall` snapshots the cell
(`Array.from`) into the closure record and pushes the subscription onto each
captured path's bucket; `mutateCallerSet` only rewrites the caller's own set
object; `disposeCall` runs the stored closure, splicing the subscription out of
the buckets of its CAPTURED paths. -/
def stepSub (w : SubscribeWorld) (e : SubEvent) : SubscribeWorld :=
  match e with
  | SubEvent.subscribeCall s =>
    SubscribeWorld.mk w.cell (addPathSub w.pathListeners w.cell s)
      (w.records ++ [(s, w.cell)])
  | SubEvent.mutateCallerSet l => SubscribeWorld.mk l w.pathListeners w.records
  | SubEvent.disposeCall s =>
    match w.records.find? (fun r => r.1 == s) with
    | some r => SubscribeWorld.mk w.cell (disposePathSub w.pathListeners r.2 s) w.records
    | none => w

/-- Run a sequence of subscribe-world operations. -/
def runSub (es : List SubEvent) (w : SubscribeWorld) : SubscribeWorld :=
  es.foldl stepSub w

/-- Whether the pattern is an initial segment of the character list. -/
def charsMatch : List Char → List Char → Bool
  | [], _ => true
  | _ :: _, [] => false
  | p :: ps, c :: cs => (p == c) && charsMatch ps cs

/-- First position at or after `k` where the pattern matches, or -1. -/
def firstMatchAux (pat : List Char) : List Char → Nat → Int
  | [], k => if charsMatch pat [] then (k : Int) else -1
  | c :: rest, k =>
    if charsMatch pat (c :: rest) then (k : Int)
    else firstMatchAux pat rest (k + 1)

/-- JS `string.indexOf(pattern)`: first index of the substring, or -1. -/
def jsStringIndexOf (s pat : String) : Int :=
  firstMatchAux pat.data s.data 0

/-- The substring the `.catch` handler greps the error message for
(index.ts line 215). -/
def revokedNeedle : String := "proxy that has been revoked"

/-- Text of the rename message before the interpolated action name. -/
def staleDraftMessagePre : String :=
  "You are asynchronously changing state in the action \""

/-- Text of the rename message after the interpolated action name. -/
def staleDraftMessagePost : String :=
  "\". Make sure you point to \"state\" again as the previous state draft has been disposed"

/-- The descriptive message the `.catch` handler builds for a revoked-proxy
error during an asynchronous action named `name` (index.ts lines 216-218). -/
def staleDraftMessage (name : String) : String :=
  staleDraftMessagePre ++ name ++ staleDraftMessagePost

/-- The `.catch` handler's message transform: when
`error.message.indexOf('proxy that has been revoked') > 0` it throws the
descriptive stale-draft message, otherwise it rethrows the original error. -/
def catchHandlerMessage (name msg : String) : String :=
  if jsStringIndexOf msg revokedNeedle > 0 then staleDraftMessage name else msg

/-- The two settlements produced by one asynchronous action invocation:
what the promise returned to the caller settles to, and what the internal
(unreturned) `.then(...).catch(...)` chain settles to. -/
structure AsyncInvocationOutcome where
  returnedToCaller : Except String Unit
  internalChain : Except String Unit

/-- Settlements of an asynchronous action invocation whose body's promise
settles to `body`.  The wrapped function executes
`return actionResult` (index.ts line 229), so the caller's promise is the
body's own promise, unchanged; the flush/rename handlers live on the separate
`actionResult.then(...).catch(...)` chain, which nobody holds: on rejection the
`.catch` handler's (possibly renamed) throw becomes an unobserved rejection of
that side chain only. -/
def wrappedAsyncOutcome (name : String) (body : Except String Unit) :
    AsyncInvocationOutcome :=
  AsyncInvocationOutcome.mk body
    (match body with
     | Except.ok _ => Except.ok ()
     | Except.error m => Except.error (catchHandlerMessage name m))

theorem mem_jsSetAdd (l : List String) (s x : String) :
    x ∈ jsSetAdd l s ↔ x ∈ l ∨ x = s := by
  unfold jsSetAdd
  by_cases h : s ∈ l
  · rw [if_pos h]
    constructor
    · exact Or.inl
    · rintro (hx | rfl)
      · exact hx
      · exact h
  · rw [if_neg h]
    simp

theorem mem_accumOp (paths : List String) (o : Operation) (x : String) :
    x ∈ accumOp paths o ↔ x ∈ paths ∨ opDirty o x := by
  unfold accumOp opDirty
  by_cases hk : o.op = OpKind.add ∨ o.op = OpKind.remove
  · simp only [if_pos hk, mem_jsSetAdd]
    tauto
  · simp only [if_neg hk, mem_jsSetAdd]
    tauto

theorem mem_foldl_accumOp (ops : List Operation) :
    ∀ (acc : List String) (x : String),
      x ∈ ops.foldl accumOp acc ↔ x ∈ acc ∨ ∃ o ∈ ops, opDirty o x := by
  induction ops with
  | nil => intro acc x; simp
  | cons o os ih =>
    intro acc x
    rw [List.foldl_cons, ih, mem_accumOp]
    simp only [List.mem_cons]
    constructor
    · rintro ((h | h) | ⟨b, hb, h⟩)
      · exact Or.inl h
      · exact Or.inr ⟨o, Or.inl rfl, h⟩
      · exact Or.inr ⟨b, Or.inr hb, h⟩
    · rintro (h | ⟨b, (rfl | hb), h⟩)
      · exact Or.inl (Or.inl h)
      · exact Or.inl (Or.inr h)
      · exact Or.inr ⟨b, hb, h⟩

theorem mem_getUpdatePaths (ops : List Operation) (x : String) :
    x ∈ getUpdatePaths ops ↔ ∃ o ∈ ops, opDirty o x := by
  have h := mem_foldl_accumOp ops [] x
  simpa [getUpdatePaths] using h

theorem mem_getUpdatePaths_single (o : Operation) (x : String) :
    x ∈ getUpdatePaths [o] ↔ opDirty o x := by
  rw [mem_getUpdatePaths]
  simp

theorem mem_getUpdatePaths_union (ops : List Operation) (x : String) :
    x ∈ getUpdatePaths ops ↔ ∃ o ∈ ops, x ∈ getUpdatePaths [o] := by
  rw [mem_getUpdatePaths]
  constructor
  · rintro ⟨o, ho, hd⟩
    exact ⟨o, ho, (mem_getUpdatePaths_single o x).mpr hd⟩
  · rintro ⟨o, ho, hd⟩
    exact ⟨o, ho, (mem_getUpdatePaths_single o x).mp hd⟩

/-- C1: for every commit, the dirty path set contains exactly the dot-joined
path of every edit record, plus the dot-joined parent path of every `add` or
`remove` record (`replace` records contribute only their own path); in
particular a single `add` of key `newKey` under a pre-existing `obj` yields
exactly the set containing "obj.newKey" and "obj". -/
theorem c1_dirty_path_set :
    (∀ (ops : List Operation) (x : String),
      x ∈ getUpdatePaths ops ↔
        (∃ o ∈ ops, x = joinPath o.path) ∨
          (∃ o ∈ ops, (o.op = OpKind.add ∨ o.op = OpKind.remove) ∧
            x = joinPath (parentSegs o.path))) ∧
    (∀ x : String,
      x ∈ getUpdatePaths [Operation.mk OpKind.add ["obj", "newKey"]] ↔
        (x = "obj.newKey" ∨ x = "obj")) := by
  constructor
  · intro ops x
    rw [mem_getUpdatePaths]
    unfold opDirty
    constructor
    · rintro ⟨o, ho, (h | h)⟩
      · exact Or.inl ⟨o, ho, h⟩
      · exact Or.inr ⟨o, ho, h⟩
    · rintro (⟨o, ho, h⟩ | ⟨o, ho, h⟩)
      · exact ⟨o, ho, Or.inl h⟩
      · exact ⟨o, ho, Or.inr h⟩
  · intro x
    rw [mem_getUpdatePaths_single]
    unfold opDirty
    have h1 : joinPath ["obj", "newKey"] = "obj.newKey" := by decide
    have h2 : joinPath (parentSegs ["obj", "newKey"]) = "obj" := by decide
    simp [h1, h2]

theorem runEvents_append (xs ys : List Event) (s : InvState) :
    runEvents (xs ++ ys) s = runEvents ys (runEvents xs s) := by
  simp [runEvents, List.foldl_append]

theorem opsOfAccesses_cons (a : Access) (as : List Access) :
    opsOfAccesses (a :: as) = opsOfAccesses [a] ++ opsOfAccesses as := by
  cases a <;> simp [opsOfAccesses]

theorem applyAccess_some (d : List Operation) (b : Bool) (c : List (List String))
    (a : Access) :
    applyAccess (InvState.mk (some d) b c) a
      = InvState.mk (some (d ++ opsOfAccesses [a])) true c := by
  cases a <;> simp [applyAccess, configureUpdate, opsOfAccesses]

theorem applyAccess_none (b : Bool) (c : List (List String)) (a : Access) :
    applyAccess (InvState.mk none b c) a
      = InvState.mk (some (opsOfAccesses [a])) true c := by
  cases a <;> simp [applyAccess, configureUpdate, opsOfAccesses]

theorem runAccesses_some (accesses : List Access) :
    ∀ (d : List Operation) (b : Bool) (c : List (List String)),
      runEvents (accesses.map Event.access) (InvState.mk (some d) b c)
        = InvState.mk (some (d ++ opsOfAccesses accesses))
            (if accesses = [] then b else true) c := by
  induction accesses with
  | nil => intro d b c; simp [runEvents, opsOfAccesses]
  | cons a as ih =>
    intro d b c
    simp only [List.map_cons, runEvents, List.foldl_cons]
    rw [show stepEvent (InvState.mk (some d) b c) (Event.access a)
          = applyAccess (InvState.mk (some d) b c) a from rfl,
        applyAccess_some]
    have h := ih (d ++ opsOfAccesses [a]) true c
    simp only [runEvents] at h
    rw [h, opsOfAccesses_cons a as]
    simp [List.append_assoc]

theorem runAccesses_from_none (a : Access) (as : List Access) (b : Bool)
    (c : List (List String)) :
    runEvents ((a :: as).map Event.access) (InvState.mk none b c)
      = InvState.mk (some (opsOfAccesses (a :: as))) true c := by
  simp only [List.map_cons, runEvents, List.foldl_cons]
  rw [show stepEvent (InvState.mk none b c) (Event.access a)
        = applyAccess (InvState.mk none b c) a from rfl,
      applyAccess_none]
  have h := runAccesses_some as (opsOfAccesses [a]) true c
  simp only [runEvents] at h
  rw [h, opsOfAccesses_cons a as]
  simp

/-- C2: a wrapped action whose body runs synchronously (non-awaitable result)
produces exactly one commit — flushed by the return-time `clearTimeout` +
`flushMutations`, with the timer disarmed so no further batch can fire — whose
dirty path set is the union of the contributions of all accumulated edit
records, provided the body accessed state at least once; a body that never
accessed state produces zero commits. -/
theorem c2_sync_single_commit (accesses : List Access) (h : accesses ≠ []) :
    runEvents (accesses.map Event.access ++ [Event.syncReturn false]) initInv
      = InvState.mk none false [getUpdatePaths (opsOfAccesses accesses)] ∧
    (∀ x, x ∈ getUpdatePaths (opsOfAccesses accesses) ↔
      ∃ o ∈ opsOfAccesses accesses, x ∈ getUpdatePaths [o]) ∧
    (runEvents [Event.syncReturn false] initInv).commits = [] := by
  obtain ⟨a, as, rfl⟩ : ∃ a as, accesses = a :: as := by
    cases accesses with
    | nil => exact absurd rfl h
    | cons a as => exact ⟨a, as, rfl⟩
  refine ⟨?_, fun x => mem_getUpdatePaths_union _ x, by simp [runEvents, stepEvent, initInv]⟩
  rw [runEvents_append]
  simp only [initInv]
  rw [runAccesses_from_none]
  simp [runEvents, stepEvent, flushDraft]

/-- C2 witness: three synchronous writes to the paths a, b and obj.x produce a
single commit whose dirty set is the union of the three contributions
(with obj.x an `add`, synthesizing the parent entry obj). -/
theorem c2_sync_single_commit_instance :
    ([Access.mutate (Operation.mk OpKind.replace ["a"]),
      Access.mutate (Operation.mk OpKind.replace ["b"]),
      Access.mutate (Operation.mk OpKind.add ["obj", "x"])] ≠ ([] : List Access)) ∧
    runEvents
        ([Access.mutate (Operation.mk OpKind.replace ["a"]),
          Access.mutate (Operation.mk OpKind.replace ["b"]),
          Access.mutate (Operation.mk OpKind.add ["obj", "x"])].map Event.access
          ++ [Event.syncReturn false]) initInv
      = InvState.mk none false [["a", "b", "obj", "obj.x"]] := by
  constructor
  · decide
  · have h := c2_sync_single_commit
      [Access.mutate (Operation.mk OpKind.replace ["a"]),
       Access.mutate (Operation.mk OpKind.replace ["b"]),
       Access.mutate (Operation.mk OpKind.add ["obj", "x"])] (by decide)
    exact h.1.trans (by decide)

/-- C3: an action that mutates, returns an awaitable (awaiting an external
promise), and mutates again before its awaitable settles, produces exactly two
commits: the zero-delay timer armed during the synchronous phase fires at the
end of that phase and commits the pre-await mutations, and the `.then`
continuation run at settlement commits the post-await mutations. -/
theorem c3_async_two_phase (pre post : List Access) (hpre : pre ≠ [])
    (hpost : post ≠ []) :
    runEvents (pre.map Event.access ++ [Event.syncReturn true, Event.timerFire]
        ++ post.map Event.access ++ [Event.promiseResolve]) initInv
      = InvState.mk none false
          [getUpdatePaths (opsOfAccesses pre), getUpdatePaths (opsOfAccesses post)] := by
  obtain ⟨a, as, rfl⟩ : ∃ a as, pre = a :: as := by
    cases pre with
    | nil => exact absurd rfl hpre
    | cons a as => exact ⟨a, as, rfl⟩
  obtain ⟨b, bs, rfl⟩ : ∃ b bs, post = b :: bs := by
    cases post with
    | nil => exact absurd rfl hpost
    | cons b bs => exact ⟨b, bs, rfl⟩
  rw [runEvents_append, runEvents_append, runEvents_append]
  simp only [initInv]
  rw [runAccesses_from_none]
  rw [show runEvents [Event.syncReturn true, Event.timerFire]
        (InvState.mk (some (opsOfAccesses (a :: as))) true [])
      = InvState.mk none false [getUpdatePaths (opsOfAccesses (a :: as))] by
    simp [runEvents, stepEvent, flushDraft]]
  rw [runAccesses_from_none]
  simp [runEvents, stepEvent, flushDraft]

/-- C3 witness: one pre-await write to a and one post-await write to b produce
exactly the two commits with dirty sets containing a and b respectively. -/
theorem c3_async_two_phase_instance :
    runEvents
        ([Access.mutate (Operation.mk OpKind.replace ["a"])].map Event.access
          ++ [Event.syncReturn true, Event.timerFire]
          ++ [Access.mutate (Operation.mk OpKind.replace ["b"])].map Event.access
          ++ [Event.promiseResolve]) initInv
      = InvState.mk none false [["a"], ["b"]] := by
  have h := c3_async_two_phase
    [Access.mutate (Operation.mk OpKind.replace ["a"])]
    [Access.mutate (Operation.mk OpKind.replace ["b"])] (by decide) (by decide)
  exact h.trans (by decide)

/-- C4 counterexample: after a mutating access the zero-delay commit timer is
armed, and when the action function returns an awaitable result the wrapped
call performs no `clearTimeout` (the `instanceof Promise` branch only attaches
handlers), so the deferred commit is NOT cancelled immediately at return — the
timer is still armed, refuting the claim at this input. -/
theorem c4_timer_not_cancelled_at_return :
    ¬ ((runEvents [Event.access (Access.mutate (Operation.mk OpKind.replace ["a"])),
        Event.syncReturn true] initInv).timerArmed = false) := by
  decide

/-- C4 amended: for an action invocation whose result is an awaitable, the
deferred zero-delay commit armed during the synchronous phase is not cancelled
when the action function returns — it stays armed with nothing yet committed,
and when it fires it commits the synchronous-phase draft; cancellation of any
pending timer, and the commit of a draft still open, instead happen when the
awaitable settles. -/
theorem c4_deferred_commit_amended (pre post : List Access) (hpre : pre ≠ [])
    (hpost : post ≠ []) :
    (runEvents (pre.map Event.access ++ [Event.syncReturn true]) initInv).timerArmed
        = true ∧
    (runEvents (pre.map Event.access ++ [Event.syncReturn true]) initInv).commits
        = [] ∧
    (runEvents (pre.map Event.access ++ [Event.syncReturn true, Event.timerFire])
        initInv).commits = [getUpdatePaths (opsOfAccesses pre)] ∧
    runEvents (pre.map Event.access ++ [Event.syncReturn true, Event.timerFire]
        ++ post.map Event.access ++ [Event.promiseResolve]) initInv
      = InvState.mk none false
          [getUpdatePaths (opsOfAccesses pre), getUpdatePaths (opsOfAccesses post)] := by
  obtain ⟨a, as, rfl⟩ : ∃ a as, pre = a :: as := by
    cases pre with
    | nil => exact absurd rfl hpre
    | cons a as => exact ⟨a, as, rfl⟩
  obtain ⟨b, bs, rfl⟩ : ∃ b bs, post = b :: bs := by
    cases post with
    | nil => exact absurd rfl hpost
    | cons b bs => exact ⟨b, bs, rfl⟩
  have h1 : runEvents ((a :: as).map Event.access ++ [Event.syncReturn true]) initInv
      = InvState.mk (some (opsOfAccesses (a :: as))) true [] := by
    rw [runEvents_append]
    simp only [initInv]
    rw [runAccesses_from_none]
    simp [runEvents, stepEvent]
  refine ⟨by rw [h1], by rw [h1], ?_, ?_⟩
  · rw [show ((a :: as).map Event.access ++ [Event.syncReturn true, Event.timerFire])
        = ((a :: as).map Event.access ++ [Event.syncReturn true]) ++ [Event.timerFire] by
      simp]
    rw [runEvents_append, h1]
    simp [runEvents, stepEvent, flushDraft]
  · rw [runEvents_append, runEvents_append, runEvents_append]
    simp only [initInv]
    rw [runAccesses_from_none]
    rw [show runEvents [Event.syncReturn true, Event.timerFire]
          (InvState.mk (some (opsOfAccesses (a :: as))) true [])
        = InvState.mk none false [getUpdatePaths (opsOfAccesses (a :: as))] by
      simp [runEvents, stepEvent, flushDraft]]
    rw [runAccesses_from_none]
    simp [runEvents, stepEvent, flushDraft]

/-- C4 amended witness: with one pre-await write to a and one post-await write
to b, the timer is still armed at return with nothing committed, the timer
firing commits the a-write, and after settlement both commits exist. -/
theorem c4_deferred_commit_amended_instance :
    (runEvents ([Access.mutate (Operation.mk OpKind.replace ["a"])].map Event.access
        ++ [Event.syncReturn true]) initInv).timerArmed = true ∧
    (runEvents ([Access.mutate (Operation.mk OpKind.replace ["a"])].map Event.access
        ++ [Event.syncReturn true, Event.timerFire]) initInv).commits = [["a"]] := by
  have h := c4_deferred_commit_amended
    [Access.mutate (Operation.mk OpKind.replace ["a"])]
    [Access.mutate (Operation.mk OpKind.replace ["b"])] (by decide) (by decide)
  exact ⟨h.1, h.2.2.1.trans (by decide)⟩

/-- C8 counterexample: an action that performs one mutating access and then
throws synchronously leaves the zero-delay timer armed (nothing on the throw
path clears it), so on the next turn the timer fires and a commit of the
attempted mutation does occur — refuting, at this input, the claim that no
commit ever occurs for that invocation. -/
theorem c8_commit_after_throw :
    ¬ ((runEvents [Event.timerFire]
        (runThrowingInvocation [Access.mutate (Operation.mk OpKind.replace ["a"])]
          ("boom")).1).commits = []) := by
  decide

/-- C8 amended: when an action body accesses state and then throws
synchronously, the error propagates unchanged to the caller and no commit has
happened at the moment of the throw; but the zero-delay timer armed by the
state accesses is not cancelled by the throw, so it fires on the next turn and
commits (and notifies) the attempted mutations — they are not discarded. -/
theorem c8_sync_throw_amended (accesses : List Access) (e : String)
    (h : accesses ≠ []) :
    (runThrowingInvocation accesses e).2 = Except.error e ∧
    (runThrowingInvocation accesses e).1.commits = [] ∧
    (runThrowingInvocation accesses e).1.timerArmed = true ∧
    (runThrowingInvocation accesses e).1.currentDraft = some (opsOfAccesses accesses) ∧
    (runEvents [Event.timerFire] (runThrowingInvocation accesses e).1).commits
      = [getUpdatePaths (opsOfAccesses accesses)] := by
  obtain ⟨a, as, rfl⟩ : ∃ a as, accesses = a :: as := by
    cases accesses with
    | nil => exact absurd rfl h
    | cons a as => exact ⟨a, as, rfl⟩
  have h1 : (runThrowingInvocation (a :: as) e).1
      = InvState.mk (some (opsOfAccesses (a :: as))) true [] := by
    unfold runThrowingInvocation
    simp only [initInv]
    rw [runAccesses_from_none]
  refine ⟨rfl, by rw [h1], by rw [h1], by rw [h1], ?_⟩
  rw [h1]
  simp [runEvents, stepEvent, flushDraft]

/-- C8 amended witness: a single write to a followed by a synchronous throw of
"boom" propagates the error unchanged, and the still-armed timer commits the
dirty set containing a on the next turn. -/
theorem c8_sync_throw_amended_instance :
    ((([Access.mutate (Operation.mk OpKind.replace ["a"])]) ≠ ([] : List Access)) ∧
      (runThrowingInvocation [Access.mutate (Operation.mk OpKind.replace ["a"])]
        ("boom")).2 = Except.error ("boom")) ∧
    (runEvents [Event.timerFire]
        (runThrowingInvocation [Access.mutate (Operation.mk OpKind.replace ["a"])]
          ("boom")).1).commits = [["a"]] := by
  have h := c8_sync_throw_amended [Access.mutate (Operation.mk OpKind.replace ["a"])]
    ("boom") (by decide)
  exact ⟨⟨by decide, h.1⟩, h.2.2.2.2.trans (by decide)⟩

theorem countOcc_append [DecidableEq α] (a : α) (l r : List α) :
    countOcc a (l ++ r) = countOcc a l + countOcc a r := by
  induction l with
  | nil => simp [countOcc]
  | cons b l ih => simp [countOcc, ih]; omega

theorem foldl_calls_eq_concatMap (pathListeners : String → List Nat)
    (paths : List String) :
    ∀ acc : List NotifyCall,
      paths.foldl
          (fun calls p => calls ++ (pathListeners p).map (NotifyCall.pathNotify p)) acc
        = acc ++ listConcatMap
            (fun p => (pathListeners p).map (NotifyCall.pathNotify p)) paths := by
  induction paths with
  | nil => intro acc; simp [listConcatMap]
  | cons p ps ih =>
    intro acc
    rw [List.foldl_cons, ih]
    simp [listConcatMap, List.append_assoc]

theorem updateListenersTrace_eq (pathListeners : String → List Nat)
    (globalListeners : List Nat) (paths : List String) :
    updateListenersTrace pathListeners globalListeners paths
      = listConcatMap (fun p => (pathListeners p).map (NotifyCall.pathNotify p)) paths
        ++ globalListeners.map NotifyCall.globalNotify := by
  unfold updateListenersTrace
  rw [foldl_calls_eq_concatMap]
  simp

theorem countOcc_map_pathNotify (p : String) (s : Nat) (bucket : List Nat) :
    countOcc (NotifyCall.pathNotify p s) (bucket.map (NotifyCall.pathNotify p))
      = countOcc s bucket := by
  induction bucket with
  | nil => rfl
  | cons x xs ih => simp [countOcc, ih, NotifyCall.pathNotify.injEq]

theorem countOcc_map_pathNotify_ne (p q : String) (hqp : q ≠ p) (s : Nat)
    (bucket : List Nat) :
    countOcc (NotifyCall.pathNotify p s) (bucket.map (NotifyCall.pathNotify q)) = 0 := by
  induction bucket with
  | nil => rfl
  | cons x xs ih => simp [countOcc, ih, NotifyCall.pathNotify.injEq, hqp]

theorem countOcc_pathNotify_concatMap (pathListeners : String → List Nat)
    (paths : List String) (p : String) (s : Nat) :
    countOcc (NotifyCall.pathNotify p s)
        (listConcatMap (fun q => (pathListeners q).map (NotifyCall.pathNotify q)) paths)
      = countOcc p paths * countOcc s (pathListeners p) := by
  induction paths with
  | nil => simp [listConcatMap, countOcc]
  | cons q qs ih =>
    simp only [listConcatMap, countOcc_append, ih]
    by_cases hq : q = p
    · subst hq
      rw [countOcc_map_pathNotify]
      have hc : countOcc q (q :: qs) = 1 + countOcc q qs := by
        simp [countOcc]
      rw [hc]
      ring
    · rw [countOcc_map_pathNotify_ne p q hq]
      have hc : countOcc p (q :: qs) = countOcc p qs := by
        simp [countOcc, hq]
      rw [hc]
      simp

theorem countOcc_pathNotify_map_global (p : String) (s : Nat)
    (globalListeners : List Nat) :
    countOcc (NotifyCall.pathNotify p s)
      (globalListeners.map NotifyCall.globalNotify) = 0 := by
  induction globalListeners with
  | nil => rfl
  | cons g gs ih => simp [countOcc, ih]

theorem countOcc_global_concatMap (pathListeners : String → List Nat)
    (paths : List String) (f : Nat) :
    countOcc (NotifyCall.globalNotify f)
        (listConcatMap (fun q => (pathListeners q).map (NotifyCall.pathNotify q)) paths)
      = 0 := by
  induction paths with
  | nil => rfl
  | cons q qs ih =>
    simp only [listConcatMap, countOcc_append, ih]
    have hz : countOcc (NotifyCall.globalNotify f)
        ((pathListeners q).map (NotifyCall.pathNotify q)) = 0 := by
      induction pathListeners q with
      | nil => rfl
      | cons x xs ih2 => simp [countOcc, ih2]
    omega

theorem countOcc_map_globalNotify (f : Nat) (globalListeners : List Nat) :
    countOcc (NotifyCall.globalNotify f)
      (globalListeners.map NotifyCall.globalNotify) = countOcc f globalListeners := by
  induction globalListeners with
  | nil => rfl
  | cons g gs ih => simp [countOcc, ih, NotifyCall.globalNotify.injEq]

/-- C5: one commit's notification trace is exactly the per-dirty-path bucket
dispatches, each bucket in insertion order, followed by every global listener
in subscribe order; a subscription is invoked once per matching dirty path
(occurrences of the path in the dirty list times occurrences of the
subscription in that bucket, with no deduplication), and each registered global
listener entry is invoked exactly once, strictly after all per-path dispatch. -/
theorem c5_notification_order (pathListeners : String → List Nat)
    (globalListeners : List Nat) (paths : List String) :
    updateListenersTrace pathListeners globalListeners paths
      = listConcatMap (fun p => (pathListeners p).map (NotifyCall.pathNotify p)) paths
        ++ globalListeners.map NotifyCall.globalNotify ∧
    (∀ (p : String) (s : Nat),
      countOcc (NotifyCall.pathNotify p s)
          (updateListenersTrace pathListeners globalListeners paths)
        = countOcc p paths * countOcc s (pathListeners p)) ∧
    (∀ f : Nat,
      countOcc (NotifyCall.globalNotify f)
          (updateListenersTrace pathListeners globalListeners paths)
        = countOcc f globalListeners) := by
  refine ⟨updateListenersTrace_eq pathListeners globalListeners paths, ?_, ?_⟩
  · intro p s
    rw [updateListenersTrace_eq, countOcc_append, countOcc_pathNotify_concatMap,
      countOcc_pathNotify_map_global]
    simp
  · intro f
    rw [updateListenersTrace_eq, countOcc_append, countOcc_global_concatMap,
      countOcc_map_globalNotify]
    simp

theorem take_length_append (l r : List Nat) : (l ++ r).take l.length = l := by
  induction l with
  | nil => simp
  | cons x xs ih => simp [ih]

theorem drop_length_succ_append (l r : List Nat) :
    (l ++ r).drop (l.length + 1) = r.drop 1 := by
  induction l with
  | nil => simp
  | cons x xs ih => simp

theorem jsIndexOf_append_self (l : List Nat) (s : Nat) (h : s ∉ l) :
    jsIndexOf (l ++ [s]) s = (l.length : Int) := by
  induction l with
  | nil => simp [jsIndexOf]
  | cons x xs ih =>
    have hx : x ≠ s := fun e => h (by simp [e])
    have hs : s ∉ xs := fun m => h (List.mem_cons_of_mem _ m)
    have ihs := ih hs
    rw [List.cons_append]
    rw [show jsIndexOf (x :: (xs ++ [s])) s
          = if x = s then 0
            else if jsIndexOf (xs ++ [s]) s < 0 then -1 else jsIndexOf (xs ++ [s]) s + 1
        from rfl]
    rw [if_neg hx, ihs]
    have hnn : ¬ ((xs.length : Int) < 0) := by omega
    rw [if_neg hnn]
    simp

theorem removeFromBucket_append_self (l : List Nat) (s : Nat) (h : s ∉ l) :
    removeFromBucket (l ++ [s]) s = l := by
  have hnn : ¬ ((l.length : Int) < 0) := by omega
  have hlen : ((l ++ [s]).length) = l.length + 1 := by simp
  have hle : ((l.length : Int)) ≤ (((l ++ [s]).length : Int)) := by
    rw [hlen]
    exact_mod_cast Nat.le_succ _
  have htn : ((l.length : Int)).toNat = l.length := by omega
  simp only [removeFromBucket, jsSpliceRemoveOne, jsIndexOf_append_self l s h]
  rw [if_neg hnn, min_eq_left hle, htn, take_length_append, drop_length_succ_append]
  simp

theorem foldl_bucketUpdate_apply (g : List Nat → List Nat) (paths : List String) :
    ∀ (pl : String → List Nat) (q : String), paths.Nodup →
      (paths.foldl (bucketUpdate g) pl) q = if q ∈ paths then g (pl q) else pl q := by
  induction paths with
  | nil => intro pl q _; simp
  | cons p ps ih =>
    intro pl q hnd
    have hp : p ∉ ps := (List.nodup_cons.mp hnd).1
    have hnd2 : ps.Nodup := (List.nodup_cons.mp hnd).2
    rw [List.foldl_cons, ih (bucketUpdate g pl p) q hnd2]
    by_cases hqs : q ∈ ps
    · have hqp : q ≠ p := fun e => hp (e ▸ hqs)
      rw [if_pos hqs, if_pos (List.mem_cons_of_mem _ hqs)]
      unfold bucketUpdate
      rw [if_neg hqp]
    · by_cases hqp : q = p
      · subst hqp
        rw [if_neg hqs, if_pos (List.mem_cons_self _ _)]
        unfold bucketUpdate
        rw [if_pos rfl]
      · rw [if_neg hqs, if_neg (by simp [List.mem_cons, hqp, hqs])]
        unfold bucketUpdate
        rw [if_neg hqp]

theorem addPathSub_apply (pl : String → List Nat) (paths : List String) (s : Nat)
    (q : String) (hnd : paths.Nodup) :
    addPathSub pl paths s q = if q ∈ paths then pl q ++ [s] else pl q := by
  unfold addPathSub
  exact foldl_bucketUpdate_apply _ paths pl q hnd

theorem disposePathSub_apply (pl : String → List Nat) (paths : List String) (s : Nat)
    (q : String) (hnd : paths.Nodup) :
    disposePathSub pl paths s q
      = if q ∈ paths then removeFromBucket (pl q) s else pl q := by
  unfold disposePathSub
  exact foldl_bucketUpdate_apply _ paths pl q hnd

/-- C6 failing input: with two subscriptions in the path x bucket, calling
subscription 1's disposer once leaves the bucket holding [2]; calling it a
second time computes `indexOf = -1` and `splice(-1, 1)`, which removes the LAST
element — the unrelated subscription 2 — so the second call is not a no-op and
corrupts the registry, contradicting the claim. -/
theorem c6_double_dispose_corrupts :
    (disposePathSub plTwoSubs ["x"] 1) "x" = [2] ∧
    (disposePathSub (disposePathSub plTwoSubs ["x"] 1) ["x"] 1) "x" = [] ∧
    (disposePathSub (disposePathSub plTwoSubs ["x"] 1) ["x"] 1) "x"
      ≠ (disposePathSub plTwoSubs ["x"] 1) "x" := by
  refine ⟨by decide, by decide, by decide⟩

/-- C7 failing input: bucket [1, 2, 3] where subscription 1's update callback
disposes subscription 2 (not yet visited).  The live `forEach` then reads index
1 of the mutated array [1, 3] and visits 3, and index 2 is past the new end, so
the invocation order is [1, 3]: subscription 2, present at the start of the
bucket's dispatch, is never invoked — dispatch does not behave as iteration
over a stable snapshot, contradicting the claim. -/
theorem c7_dispatch_skips_removed :
    dispatchBucketLive effDisposeTwo [1, 2, 3] = ([1, 3], [1, 3]) ∧
    2 ∈ ([1, 2, 3] : List Nat) ∧
    2 ∉ (dispatchBucketLive effDisposeTwo [1, 2, 3]).2 := by
  refine ⟨by decide, by decide, by decide⟩

/-- C10: `subscribe` captures `Array.from(paths)` at call time; mutating the
caller's set object afterwards leaves the registry untouched, the subscription
sits in exactly the buckets of the captured paths, and the disposer — run after
the mutation — removes it from exactly those buckets, restoring every bucket of
a previously-fresh subscription to its original contents. -/
theorem c10_paths_captured (ps psMut : List String) (pl0 : String → List Nat)
    (s : Nat) (hfresh : ∀ p, s ∉ pl0 p) (hnd : ps.Nodup) :
    (∀ q, (runSub [SubEvent.subscribeCall s, SubEvent.mutateCallerSet psMut]
        (SubscribeWorld.mk ps pl0 [])).pathListeners q
      = (runSub [SubEvent.subscribeCall s]
          (SubscribeWorld.mk ps pl0 [])).pathListeners q) ∧
    (∀ q, s ∈ (runSub [SubEvent.subscribeCall s, SubEvent.mutateCallerSet psMut]
        (SubscribeWorld.mk ps pl0 [])).pathListeners q ↔ q ∈ ps) ∧
    (∀ q, (runSub [SubEvent.subscribeCall s, SubEvent.mutateCallerSet psMut,
        SubEvent.disposeCall s] (SubscribeWorld.mk ps pl0 [])).pathListeners q
      = pl0 q) := by
  have hrun2 : runSub [SubEvent.subscribeCall s, SubEvent.mutateCallerSet psMut]
      (SubscribeWorld.mk ps pl0 [])
      = SubscribeWorld.mk psMut (addPathSub pl0 ps s) [(s, ps)] := by
    simp [runSub, stepSub]
  have hrun3 : runSub [SubEvent.subscribeCall s, SubEvent.mutateCallerSet psMut,
      SubEvent.disposeCall s] (SubscribeWorld.mk ps pl0 [])
      = SubscribeWorld.mk psMut (disposePathSub (addPathSub pl0 ps s) ps s) [(s, ps)] := by
    simp [runSub, stepSub, List.find?]
  refine ⟨?_, ?_, ?_⟩
  · intro q
    rw [hrun2]
    simp [runSub, stepSub]
  · intro q
    rw [hrun2]
    simp only
    rw [addPathSub_apply pl0 ps s q hnd]
    by_cases hq : q ∈ ps
    · simp [hq]
    · simp [hq, hfresh q]
  · intro q
    rw [hrun3]
    simp only
    rw [disposePathSub_apply _ ps s q hnd, addPathSub_apply pl0 ps s q hnd]
    by_cases hq : q ∈ ps
    · rw [if_pos hq, if_pos hq, removeFromBucket_append_self _ _ (hfresh q)]
    · rw [if_neg hq, if_neg hq]

/-- C10 witness: subscription 7 registered while the caller's set reads
["a", "b"], with the set mutated to ["z"] before disposal: the subscription is
in the a bucket after the mutation, and disposal still cleans the a bucket back
to empty. -/
theorem c10_paths_captured_instance :
    7 ∈ (runSub [SubEvent.subscribeCall 7, SubEvent.mutateCallerSet ["z"]]
        (SubscribeWorld.mk ["a", "b"] (fun _ => []) [])).pathListeners ("a") ∧
    (runSub [SubEvent.subscribeCall 7, SubEvent.mutateCallerSet ["z"],
        SubEvent.disposeCall 7]
        (SubscribeWorld.mk ["a", "b"] (fun _ => []) [])).pathListeners ("a") = [] := by
  have h := c10_paths_captured ["a", "b"] ["z"] (fun _ => []) 7
    (fun p => List.not_mem_nil 7) (by decide)
  exact ⟨(h.2.1 ("a")).mpr (by decide), h.2.2 ("a")⟩

/-- C9 counterexample: for a stale-draft (revoked-proxy) rejection inside the
action updateFoo, the promise the wrapped call returned to the caller rejects
with the ORIGINAL revoked-proxy error, not with the descriptive action-named
message — the rename happens only on the unreturned `.then(...).catch(...)`
side chain, refuting the claim that the caller receives the descriptive error. -/
theorem c9_caller_gets_original_error :
    ¬ ((wrappedAsyncOutcome ("updateFoo")
        (Except.error ("Cannot use a proxy that has been revoked"))).returnedToCaller
      = Except.error (staleDraftMessage ("updateFoo"))) := by
  intro hEq
  have hmsg : ("Cannot use a proxy that has been revoked" : String)
      = staleDraftMessage ("updateFoo") := Except.error.inj hEq
  exact absurd hmsg (by decide)

/-- C9 amended: on a revoked-proxy rejection (stale draft access after commit)
the `.catch` handler does build a distinct, descriptive error that interpolates
the action's name and instructs pointing to state again — but it raises it on
the internal, unreturned continuation chain (an unhandled rejection), while the
awaitable returned to the caller rejects with the original revoked-proxy error
unchanged; the stale draft itself is never silently replaced. -/
theorem c9_stale_draft_amended (name msg : String)
    (h : jsStringIndexOf msg revokedNeedle > 0) :
    (wrappedAsyncOutcome name (Except.error msg)).internalChain
      = Except.error (staleDraftMessage name) ∧
    (wrappedAsyncOutcome name (Except.error msg)).returnedToCaller
      = Except.error msg ∧
    staleDraftMessage name = staleDraftMessagePre ++ name ++ staleDraftMessagePost := by
  refine ⟨?_, rfl, rfl⟩
  show Except.error (catchHandlerMessage name msg) = Except.error (staleDraftMessage name)
  unfold catchHandlerMessage
  rw [if_pos h]

/-- C9 amended witness: the native revoked-proxy message contains the needle at
a positive index, the internal chain carries the descriptive message naming
updateFoo, and the caller's promise still carries the original message. -/
theorem c9_stale_draft_amended_instance :
    jsStringIndexOf ("Cannot use a proxy that has been revoked") revokedNeedle > 0 ∧
    (wrappedAsyncOutcome ("updateFoo")
        (Except.error ("Cannot use a proxy that has been revoked"))).internalChain
      = Except.error ("You are asynchronously changing state in the action \"updateFoo\". Make sure you point to \"state\" again as the previous state draft has been disposed") ∧
    (wrappedAsyncOutcome ("updateFoo")
        (Except.error ("Cannot use a proxy that has been revoked"))).returnedToCaller
      = Except.error ("Cannot use a proxy that has been revoked") := by
  have h := c9_stale_draft_amended ("updateFoo")
    ("Cannot use a proxy that has been revoked") (by decide)
  exact ⟨by decide, h.1.trans (congrArg Except.error (by decide)), h.2.1⟩

end ImmerStore
